import Mathlib

/-!
Verification of the color-reduction pipeline of `eink_nfc_img`
(`scripts/convert_to_4ei.py` and `scripts/convert_to_bmp.py`).

The Python code is shallowly embedded: pixel values are exact rationals
(the scripts use `float32`; every claim settled here concerns the
structure of the algorithms, not float rounding), palette dictionaries
become association lists in declaration order, and the in-place numpy
mutation of the pixel grid becomes explicit state passing over functions
`ℕ → ℕ → _`.
-/

/-- Names of the palette colors, as used as dictionary keys in the scripts. -/
inductive ColorName
  | black
  | white
  | yellow
  | red
deriving DecidableEq, Repr

/-- An RGB triple with integer components (the palette entries and the
`astype(int)`-converted pixel values). -/
abbrev ZRGB := ℤ × ℤ × ℤ

/-- An RGB triple with rational components (the `float32` pixel grid of the
dither engine, modelled exactly). -/
abbrev QRGB := ℚ × ℚ × ℚ

/-- Cast an integer RGB triple to a rational one. -/
def qrgb (c : ZRGB) : QRGB := ((c.1 : ℚ), (c.2.1 : ℚ), (c.2.2 : ℚ))

/-- `PALETTE` of `convert_to_4ei.py` (also `PALETTE_BWRY` of
`convert_to_bmp.py`): the 4-color palette in declaration order. -/
def PALETTE : List (ColorName × ZRGB) :=
  [(ColorName.black, (0, 0, 0)),
   (ColorName.white, (255, 255, 255)),
   (ColorName.yellow, (255, 255, 0)),
   (ColorName.red, (255, 0, 0))]

/-- `COLOR_CODES` of `convert_to_4ei.py` (also `PALETTE_INDICES_BWRY` of
`convert_to_bmp.py`): the 2-bit output codes. -/
def COLOR_CODES : List (ColorName × ℕ) :=
  [(ColorName.black, 0),
   (ColorName.white, 1),
   (ColorName.yellow, 2),
   (ColorName.red, 3)]

/-- `PALETTE_BWR` of `convert_to_bmp.py`: the 3-color palette. -/
def PALETTE_BWR : List (ColorName × ZRGB) :=
  [(ColorName.black, (0, 0, 0)),
   (ColorName.white, (255, 255, 255)),
   (ColorName.red, (255, 0, 0))]

/-- `PALETTE_INDICES_BWR` of `convert_to_bmp.py`. -/
def PALETTE_INDICES_BWR : List (ColorName × ℕ) :=
  [(ColorName.black, 0),
   (ColorName.white, 1),
   (ColorName.red, 2)]

/-- `color_distance`: squared Euclidean distance between two RGB colors,
`sum((a - b) ** 2 for a, b in zip(c1, c2))`. -/
def colorDistance (c1 c2 : ZRGB) : ℤ :=
  (c1.1 - c2.1) ^ 2 + (c1.2.1 - c2.2.1) ^ 2 + (c1.2.2 - c2.2.2) ^ 2

/-- The comparison `dist < min_dist` of `nearest_color`, where `min_dist`
starts at `float('inf')` (modelled by `none`). -/
def distLT (d : ℤ) : Option ℤ → Bool
  | none => true
  | some m => decide (d < m)

/-- The loop of `nearest_color`: iterate over the palette items carrying the
running `nearest` name and `min_dist`, updating on strict improvement. -/
def nearestColorGo (rgb : ZRGB) :
    List (ColorName × ZRGB) → ColorName → Option ℤ → ColorName
  | [], best, _ => best
  | (nm, c) :: rest, best, mdist =>
      if distLT (colorDistance rgb c) mdist then
        nearestColorGo rgb rest nm (some (colorDistance rgb c))
      else
        nearestColorGo rgb rest best mdist

/-- `nearest_color(rgb, palette)` of `convert_to_bmp.py`: initial
`nearest = 'white'`, `min_dist = inf`. -/
def nearestColorP (rgb : ZRGB) (pal : List (ColorName × ZRGB)) : ColorName :=
  nearestColorGo rgb pal ColorName.white none

/-- `nearest_color(rgb)` of `convert_to_4ei.py`, which closes over the
module-level `PALETTE`. -/
def nearestColor (rgb : ZRGB) : ColorName :=
  nearestColorP rgb PALETTE

/-- `byte_val` accumulation of `pack_pixels`: fold over `bit in range(4)`,
`byte_val = (byte_val << 2) | (color_array[y, x] & 0x03)` with
`x = x_byte * 4 + bit`. -/
def packByte (g : ℕ → ℕ → ℕ) (y xb : ℕ) : ℕ :=
  (List.range 4).foldl (fun b bit => (b <<< 2) ||| (g y (xb * 4 + bit) &&& 3)) 0

/-- `pack_pixels(color_array)`: `bytes_per_row = width // 4`, and the byte at
flat index `y * bytes_per_row + x_byte` is `packByte` of that position. -/
def packPixels (w h : ℕ) (g : ℕ → ℕ → ℕ) : List ℕ :=
  (List.range (h * (w / 4))).map (fun i => packByte g (i / (w / 4)) (i % (w / 4)))

/-- `numpy`'s `astype(int)` on one channel: truncation toward zero
(`num/den` in truncated integer division, `q` being in lowest terms). -/
def truncZ (q : ℚ) : ℤ := q.num.tdiv (q.den : ℤ)

/-- `old_pixel.astype(int)` on an RGB triple. -/
def truncRGB (v : QRGB) : ZRGB := (truncZ v.1, truncZ v.2.1, truncZ v.2.2)

/-- State of the dithering loop: the mutable `float32` pixel grid and the
`uint8` output grid (`np.zeros`, hence `0` everywhere initially); grids are
indexed `pixels y x` like `pixels[y, x]`. -/
structure DState where
  pixels : ℕ → ℕ → QRGB
  output : ℕ → ℕ → ℕ

/-- `pixels[i, j] += v`: pointwise in-place addition at one grid cell. -/
def addAt (g : ℕ → ℕ → QRGB) (i j : ℕ) (v : QRGB) : ℕ → ℕ → QRGB :=
  fun a b => if a = i ∧ b = j then g a b + v else g a b

/-- `output[i, j] = v`: in-place store at one grid cell. -/
def setOut (o : ℕ → ℕ → ℕ) (i j : ℕ) (v : ℕ) : ℕ → ℕ → ℕ :=
  fun a b => if a = i ∧ b = j then v else o a b

/-- The body of the inner loop of `floyd_steinberg_dither`: classify pixel
`(x, y)` via `nearest_color(tuple(old_pixel.astype(int)))`, store its code,
and diffuse `error = old_pixel - new_pixel` with the Floyd-Steinberg
coefficients, guarded exactly as in the source. -/
def ditherStep (pal : List (ColorName × ZRGB)) (codes : List (ColorName × ℕ))
    (w h : ℕ) (st : DState) (y x : ℕ) : DState :=
  let oldPixel := st.pixels y x
  let colorName := nearestColorP (truncRGB oldPixel) pal
  let newPixel := qrgb ((pal.lookup colorName).getD (0, 0, 0))
  let out := setOut st.output y x ((codes.lookup colorName).getD 0)
  let error := oldPixel - newPixel
  let p0 := st.pixels
  let p1 := if x + 1 < w then addAt p0 y (x + 1) (((7:ℚ)/16) • error) else p0
  let p2 :=
    if y + 1 < h then
      let pa := if 0 < x then addAt p1 (y + 1) (x - 1) (((3:ℚ)/16) • error) else p1
      let pb := addAt pa (y + 1) x (((5:ℚ)/16) • error)
      if x + 1 < w then addAt pb (y + 1) (x + 1) (((1:ℚ)/16) • error) else pb
    else p1
  ⟨p2, out⟩

/-- `floyd_steinberg_dither(img, palette, palette_indices)`: row-major scan
(`for y in range(height): for x in range(width):`) of `ditherStep` starting
from the input grid and an all-zero output grid. -/
def floydSteinbergDither (w h : ℕ) (pal : List (ColorName × ZRGB))
    (codes : List (ColorName × ℕ)) (img : ℕ → ℕ → QRGB) : DState :=
  (List.range h).foldl
    (fun st y => (List.range w).foldl (fun st x => ditherStep pal codes w h st y x) st)
    ⟨img, fun _ _ => 0⟩

/-- `simple_quantize(img, palette, palette_indices)`: per-pixel nearest-color
classification into an `np.zeros` output grid (cells outside the `h × w`
domain keep the zero of `np.zeros`). -/
def simpleQuantize (w h : ℕ) (pal : List (ColorName × ZRGB))
    (codes : List (ColorName × ℕ)) (img : ℕ → ℕ → ZRGB) : ℕ → ℕ → ℕ :=
  fun y x =>
    if y < h ∧ x < w then (codes.lookup (nearestColorP (img y x) pal)).getD 0 else 0

/-- `struct.pack('<H', n)`: a `uint16` little-endian. -/
def le16 (n : ℕ) : List ℕ := [n % 256, n / 256 % 256]

/-- The byte stream written by `convert_image` of `convert_to_4ei.py` after
the external loader produced a 200×200 RGB grid: magic `b'4EI1'`
(ASCII 52, 69, 73, 49), width and height as `uint16` LE, then the packed
pixel data of the dithered or simply-quantized grid. -/
def convertImage (img : ℕ → ℕ → ZRGB) (useDither : Bool) : List ℕ :=
  let colorArray :=
    if useDither then
      (floydSteinbergDither 200 200 PALETTE COLOR_CODES (fun y x => qrgb (img y x))).output
    else
      simpleQuantize 200 200 PALETTE COLOR_CODES img
  [52, 69, 73, 49] ++ le16 200 ++ le16 200 ++ packPixels 200 200 colorArray

/-- The two `--format` variants of `convert_to_bmp.py`. -/
inductive Fmt
  | bwry
  | bwr
deriving DecidableEq

/-- One palette entry flattened to its three BMP color-table bytes
(`palette_data.extend(PALETTE_X[name])`). -/
def rgbBytes (c : ZRGB) : List ℕ := [c.1.toNat, c.2.1.toNat, c.2.2.toNat]

/-- `palette_data` built by `create_indexed_bmp`: the active palette's colors
flattened in declaration order, for `bwr` one extra `[0, 0, 0]` entry
("to have 4 colors"), then `[0] * (256 - 4) * 3` of zero fill. -/
def bmpPaletteData (fmt : Fmt) : List ℕ :=
  (match fmt with
   | Fmt.bwry => (PALETTE.map (fun e => rgbBytes e.2)).flatten
   | Fmt.bwr => (PALETTE_BWR.map (fun e => rgbBytes e.2)).flatten ++ [0, 0, 0])
  ++ List.replicate ((256 - 4) * 3) 0

/-- Modelled from the spec: the pixel bytes of the 8-bit indexed bitmap
(`Image.fromarray(color_array, mode='P')`, an external PIL collaborator)
hold the raw index code of each pixel, one byte per pixel, row-major. -/
def bmpPixelBytes (w h : ℕ) (colorArray : ℕ → ℕ → ℕ) : List ℕ :=
  (List.range (h * w)).map (fun i => colorArray (i / w) (i % w))

/-- Modelled from the spec for claim comparison: squared Euclidean distance
computed on the error-adjusted value as-is, i.e. over exact rationals. -/
def colorDistanceQ (c1 : QRGB) (c2 : ZRGB) : ℚ :=
  (c1.1 - (c2.1 : ℚ)) ^ 2 + (c1.2.1 - (c2.2.1 : ℚ)) ^ 2 + (c1.2.2 - (c2.2.2 : ℚ)) ^ 2

/-- The comparison `dist < min_dist` over rationals. -/
def distLTQ (d : ℚ) : Option ℚ → Bool
  | none => true
  | some m => decide (d < m)

/-- Modelled from the spec for claim comparison: the `nearest_color` loop
run on the unaltered rational pixel value. -/
def nearestColorQGo (rgb : QRGB) :
    List (ColorName × ZRGB) → ColorName → Option ℚ → ColorName
  | [], best, _ => best
  | (nm, c) :: rest, best, mdist =>
      if distLTQ (colorDistanceQ rgb c) mdist then
        nearestColorQGo rgb rest nm (some (colorDistanceQ rgb c))
      else
        nearestColorQGo rgb rest best mdist

/-- Modelled from the spec for claim comparison: nearest-color classification
"performed on the value as-is, without … altering the value". -/
def nearestColorQ (rgb : QRGB) (pal : List (ColorName × ZRGB)) : ColorName :=
  nearestColorQGo rgb pal ColorName.white none

/-- Modelled from the spec: re-read packed bytes 2 bits at a time in declared
bit order (most-significant pair first): pixel `x` of row `y` lives in byte
`y * (w/4) + x/4`, at bit offset `6 - 2*(x % 4)`. -/
def unpack2bit (w : ℕ) (bytes : List ℕ) (y x : ℕ) : ℕ :=
  bytes.getD (y * (w / 4) + x / 4) 0 / 4 ^ (3 - x % 4) % 4

/-- Quick sanity checks of the embedding on concrete inputs. -/
example : nearestColor (0, 0, 0) = ColorName.black := by decide
example : nearestColor (250, 250, 4) = ColorName.yellow := by decide
example : nearestColor (200, 180, 10) = ColorName.yellow := by decide
example : nearestColorP (200, 180, 10) PALETTE_BWR = ColorName.red := by decide
example : packPixels 4 1 (fun _ x => x % 4) = [27] := by decide
example : packPixels 4 2 (fun y x => (x + y) % 4) = [27, 108] := by decide
example : truncZ (Rat.divInt (-21) 10) = -2 := by decide
example : truncZ (Rat.divInt 21 10) = 2 := by decide

/-! ### Bit-packer lemmas -/

/-- `& 0x03` is reduction modulo 4. -/
lemma land_three (n : ℕ) : n &&& 3 = n % 4 := by
  have h := Nat.and_pow_two_sub_one_eq_mod n 2
  norm_num at h
  exact h

/-- Shifting two places and or-ing a 2-bit value appends it arithmetically. -/
lemma lor_small : ∀ b < 64, ∀ c < 4, (b <<< 2) ||| c = b * 4 + c := by decide

/-- One packed byte is the base-4 positional encoding of its four pixels,
first pixel in the most significant two bits. -/
lemma packByte_eq (g : ℕ → ℕ → ℕ) (y xb : ℕ) :
    packByte g y xb =
      g y (xb * 4) % 4 * 64 + g y (xb * 4 + 1) % 4 * 16 +
        g y (xb * 4 + 2) % 4 * 4 + g y (xb * 4 + 3) % 4 := by
  have e : List.range 4 = [0, 1, 2, 3] := rfl
  simp only [packByte, e, List.foldl_cons, List.foldl_nil, Nat.add_zero]
  rw [land_three, land_three, land_three, land_three]
  have hc0 : g y (xb * 4) % 4 < 4 := Nat.mod_lt _ (by norm_num)
  have hc1 : g y (xb * 4 + 1) % 4 < 4 := Nat.mod_lt _ (by norm_num)
  have hc2 : g y (xb * 4 + 2) % 4 < 4 := Nat.mod_lt _ (by norm_num)
  have hc3 : g y (xb * 4 + 3) % 4 < 4 := Nat.mod_lt _ (by norm_num)
  rw [lor_small 0 (by norm_num) _ hc0]
  rw [lor_small _ (by omega) _ hc1]
  rw [lor_small _ (by omega) _ hc2]
  rw [lor_small _ (by omega) _ hc3]
  ring

/-- The packed buffer has exactly `height * (width // 4)` bytes. -/
lemma packPixels_length (w h : ℕ) (g : ℕ → ℕ → ℕ) :
    (packPixels w h g).length = h * (w / 4) := by
  simp [packPixels]

/-- Row-major byte layout: the byte for row `y`, byte column `xb` sits at
flat index `y * (w/4) + xb`. -/
lemma packPixels_get (w h : ℕ) (g : ℕ → ℕ → ℕ) (y xb : ℕ)
    (hy : y < h) (hxb : xb < w / 4) :
    (packPixels w h g)[y * (w / 4) + xb]? = some (packByte g y xb) := by
  have hbpr : 0 < w / 4 := Nat.pos_of_ne_zero (by omega)
  have hlt : y * (w / 4) + xb < h * (w / 4) := by
    have h1 : y + 1 ≤ h := hy
    calc y * (w / 4) + xb < y * (w / 4) + (w / 4) := by omega
      _ = (y + 1) * (w / 4) := by ring
      _ ≤ h * (w / 4) := Nat.mul_le_mul_right _ h1
  simp only [packPixels, List.getElem?_map, List.getElem?_range hlt, Option.map_some']
  have hdiv : (y * (w / 4) + xb) / (w / 4) = y := by
    rw [Nat.mul_comm y (w / 4), Nat.mul_add_div hbpr, Nat.div_eq_of_lt hxb, Nat.add_zero]
  have hmod : (y * (w / 4) + xb) % (w / 4) = xb := by
    rw [Nat.mul_comm y (w / 4), Nat.mul_add_mod, Nat.mod_eq_of_lt hxb]
  rw [hdiv, hmod]

/-- C4: for every group of 4 consecutive horizontal pixels (codes < 4), the
packer places pixel 0 in bits 7-6, pixel 1 in bits 5-4, pixel 2 in bits 3-2
and pixel 3 in bits 1-0 of the byte at row-major flat index
`y * (w/4) + xb`, with no row padding (total length `h * (w/4)`). -/
theorem pack_msb_first_placement (w h : ℕ) (g : ℕ → ℕ → ℕ) (y xb : ℕ)
    (hy : y < h) (hxb : xb < w / 4)
    (hcodes : ∀ y' x', y' < h → x' < w → g y' x' < 4) :
    (packPixels w h g).length = h * (w / 4) ∧
    (packPixels w h g)[y * (w / 4) + xb]? =
      some (g y (xb * 4) * 64 + g y (xb * 4 + 1) * 16 +
        g y (xb * 4 + 2) * 4 + g y (xb * 4 + 3)) := by
  refine ⟨packPixels_length w h g, ?_⟩
  rw [packPixels_get w h g y xb hy hxb, packByte_eq]
  have h0 : g y (xb * 4) < 4 := hcodes _ _ hy (by omega)
  have h1 : g y (xb * 4 + 1) < 4 := hcodes _ _ hy (by omega)
  have h2 : g y (xb * 4 + 2) < 4 := hcodes _ _ hy (by omega)
  have h3 : g y (xb * 4 + 3) < 4 := hcodes _ _ hy (by omega)
  rw [Nat.mod_eq_of_lt h0, Nat.mod_eq_of_lt h1, Nat.mod_eq_of_lt h2, Nat.mod_eq_of_lt h3]

/-- Witness for C4: the spec's boundary scenario, a 4×1 grid with codes
[0,1,2,3] packs into the single byte 0b00011011 = 27. -/
theorem pack_msb_first_placement_witness :
    (packPixels 4 1 (fun _ x => x % 4))[0]? = some 27 := by
  have h := (pack_msb_first_placement 4 1 (fun _ x => x % 4) 0 0 (by norm_num) (by norm_num)
    (fun y' x' _ _ => Nat.mod_lt _ (by norm_num))).2
  simpa using h

/-- Extracting each base-4 digit of a packed byte recovers the pixel code. -/
lemma quad_digit (a b c d : ℕ) (ha : a < 4) (hb : b < 4) (hc : c < 4) (hd : d < 4) :
    (a * 64 + b * 16 + c * 4 + d) / 64 % 4 = a ∧
    (a * 64 + b * 16 + c * 4 + d) / 16 % 4 = b ∧
    (a * 64 + b * 16 + c * 4 + d) / 4 % 4 = c ∧
    (a * 64 + b * 16 + c * 4 + d) % 4 = d := by
  refine ⟨?_, ?_, ?_, ?_⟩ <;> omega

/-- C3: packing an index grid whose width is a multiple of 4 and whose codes
are all < 4, then re-reading the bytes 2 bits at a time MSB-pair first,
reproduces the original grid. -/
theorem pack_unpack_roundtrip (w h : ℕ) (g : ℕ → ℕ → ℕ) (y x : ℕ)
    (hw : w % 4 = 0) (hcodes : ∀ y' x', y' < h → x' < w → g y' x' < 4)
    (hy : y < h) (hx : x < w) :
    unpack2bit w (packPixels w h g) y x = g y x := by
  have hxb : x / 4 < w / 4 := by omega
  have hget := packPixels_get w h g y (x / 4) hy hxb
  unfold unpack2bit
  rw [List.getD_eq_getElem?_getD, hget, Option.getD_some, packByte_eq]
  have h0 : g y (x / 4 * 4) < 4 := hcodes _ _ hy (by omega)
  have h1 : g y (x / 4 * 4 + 1) < 4 := hcodes _ _ hy (by omega)
  have h2 : g y (x / 4 * 4 + 2) < 4 := hcodes _ _ hy (by omega)
  have h3 : g y (x / 4 * 4 + 3) < 4 := hcodes _ _ hy (by omega)
  rw [Nat.mod_eq_of_lt h0, Nat.mod_eq_of_lt h1, Nat.mod_eq_of_lt h2, Nat.mod_eq_of_lt h3]
  have hq := quad_digit _ _ _ _ h0 h1 h2 h3
  have hr : x % 4 = 0 ∨ x % 4 = 1 ∨ x % 4 = 2 ∨ x % 4 = 3 := by omega
  rcases hr with hr | hr | hr | hr
  · conv_rhs => rw [show x = x / 4 * 4 from by omega]
    rw [hr, show (4:ℕ) ^ (3 - 0) = 64 from by norm_num]
    exact hq.1
  · conv_rhs => rw [show x = x / 4 * 4 + 1 from by omega]
    rw [hr, show (4:ℕ) ^ (3 - 1) = 16 from by norm_num]
    exact hq.2.1
  · conv_rhs => rw [show x = x / 4 * 4 + 2 from by omega]
    rw [hr, show (4:ℕ) ^ (3 - 2) = 4 from by norm_num]
    exact hq.2.2.1
  · conv_rhs => rw [show x = x / 4 * 4 + 3 from by omega]
    rw [hr, show (4:ℕ) ^ (3 - 3) = 1 from by norm_num, Nat.div_one]
    exact hq.2.2.2

/-- Witness for C3: the round-trip at a concrete grid and position. -/
theorem pack_unpack_roundtrip_witness :
    unpack2bit 4 (packPixels 4 1 (fun _ x => x % 4)) 0 2 = 2 := by
  have h := pack_unpack_roundtrip 4 1 (fun _ x => x % 4) 0 2 (by norm_num)
    (fun y' x' _ _ => Nat.mod_lt _ (by norm_num)) (by norm_num) (by norm_num)
  simpa using h

/-- C7(amended): on a width not divisible by 4 the packer does not fail; it
silently truncates each row to `w / 4` bytes, behaving exactly as if the
trailing `w % 4` columns were absent. -/
theorem pack_silent_truncation (w h : ℕ) (g : ℕ → ℕ → ℕ) :
    packPixels w h g = packPixels (w / 4 * 4) h g ∧
    (packPixels w h g).length = h * (w / 4) := by
  refine ⟨?_, packPixels_length w h g⟩
  have hq : w / 4 * 4 / 4 = w / 4 := by omega
  simp only [packPixels, hq]

/-- Counterexample for C7: a 5-wide grid is packed without any error,
producing the same single byte per row as the truncated 4-wide grid and
silently dropping column 4. -/
theorem pack_silent_truncation_cex :
    packPixels 5 1 (fun _ x => x) = [27] ∧
    packPixels 5 1 (fun _ x => x) = packPixels 4 1 (fun _ x => x) := by
  constructor
  · decide
  · decide

/-- C10: the packer never rejects out-of-range codes: each code is masked by
`& 0x03`, so packing any grid equals packing the grid reduced modulo 4. -/
theorem pack_masks_mod_four (w h : ℕ) (g : ℕ → ℕ → ℕ) :
    packPixels w h g = packPixels w h (fun y x => g y x % 4) := by
  have hmask : ∀ a b : ℕ, (g a b % 4) &&& 3 = g a b &&& 3 := by
    intro a b
    rw [land_three, land_three, Nat.mod_mod_of_dvd _ (by norm_num)]
  simp only [packPixels, packByte, hmask]

/-! ### Nearest-color classification -/

/-- Any distance beats the initial infinite `min_dist`. -/
lemma distLT_none (d : ℤ) : distLT d none = true := rfl

/-- A rejected candidate is at least the running minimum. -/
lemma distLT_false_le {d m0 : ℤ} (h : distLT d (some m0) = false) : m0 ≤ d := by
  simp [distLT] at h
  omega

/-- An accepted candidate is below the running minimum. -/
lemma distLT_true_lt {d m0 : ℤ} (h : distLT d (some m0) = true) : d < m0 := by
  simpa [distLT] using h

/-- The `nearest_color` loop returns either its running best or the first
entry of the list attaining the minimal distance among entries that beat the
running minimum: strictly smaller than every earlier entry, no larger than
every later one. -/
lemma nearestColorGo_spec (rgb : ZRGB) :
    ∀ (l : List (ColorName × ZRGB)) (best : ColorName) (m : Option ℤ),
      (nearestColorGo rgb l best m = best ∧
        ∀ e ∈ l, distLT (colorDistance rgb e.2) m = false) ∨
      (∃ k : Fin l.length,
        nearestColorGo rgb l best m = (l.get k).1 ∧
        distLT (colorDistance rgb (l.get k).2) m = true ∧
        (∀ j : Fin l.length, j < k →
          colorDistance rgb (l.get k).2 < colorDistance rgb (l.get j).2) ∧
        (∀ j : Fin l.length, k ≤ j →
          colorDistance rgb (l.get k).2 ≤ colorDistance rgb (l.get j).2)) := by
  intro l
  induction l with
  | nil =>
      intro best m
      left
      refine ⟨rfl, ?_⟩
      intro e he
      cases he
  | cons e rest ih =>
      intro best m
      obtain ⟨nm, c⟩ := e
      by_cases hd : distLT (colorDistance rgb c) m = true
      · have hgo : nearestColorGo rgb ((nm, c) :: rest) best m
            = nearestColorGo rgb rest nm (some (colorDistance rgb c)) := by
          simp [nearestColorGo, hd]
        rcases ih nm (some (colorDistance rgb c)) with ⟨hres, hall⟩ | ⟨k', hres, hlt, hstrict, hle⟩
        · right
          refine ⟨⟨0, by simp⟩, ?_, hd, ?_, ?_⟩
          · rw [hgo, hres]
            rfl
          · intro j hj
            exact absurd hj (by simp [Fin.lt_def])
          · intro j _
            induction j using Fin.cases with
            | zero => exact le_refl _
            | succ i =>
                show colorDistance rgb c ≤ colorDistance rgb (rest.get i).2
                exact distLT_false_le (hall (rest.get i) (List.get_mem rest i.1 i.2))
        · right
          refine ⟨k'.succ, ?_, ?_, ?_, ?_⟩
          · rw [hgo, hres]
            rfl
          · show distLT (colorDistance rgb (rest.get k').2) m = true
            cases m with
            | none => rfl
            | some m0 =>
                have h1 := distLT_true_lt hd
                have h2 := distLT_true_lt hlt
                simp only [distLT, decide_eq_true_eq]
                omega
          · intro j hj
            induction j using Fin.cases with
            | zero =>
                show colorDistance rgb (rest.get k').2 < colorDistance rgb c
                exact distLT_true_lt hlt
            | succ i =>
                show colorDistance rgb (rest.get k').2 < colorDistance rgb (rest.get i).2
                exact hstrict i (Fin.succ_lt_succ_iff.mp hj)
          · intro j hj
            induction j using Fin.cases with
            | zero => exact absurd hj (by simp [Fin.le_def])
            | succ i =>
                show colorDistance rgb (rest.get k').2 ≤ colorDistance rgb (rest.get i).2
                exact hle i (Fin.succ_le_succ_iff.mp hj)
      · have hdf : distLT (colorDistance rgb c) m = false := by
          simpa using hd
        have hgo : nearestColorGo rgb ((nm, c) :: rest) best m
            = nearestColorGo rgb rest best m := by
          simp [nearestColorGo, hdf]
        rcases ih best m with ⟨hres, hall⟩ | ⟨k', hres, hlt, hstrict, hle⟩
        · left
          refine ⟨by rw [hgo, hres], ?_⟩
          intro e' he'
          rcases List.mem_cons.mp he' with rfl | h
          · exact hdf
          · exact hall e' h
        · right
          refine ⟨k'.succ, ?_, ?_, ?_, ?_⟩
          · rw [hgo, hres]
            rfl
          · show distLT (colorDistance rgb (rest.get k').2) m = true
            exact hlt
          · intro j hj
            induction j using Fin.cases with
            | zero =>
                show colorDistance rgb (rest.get k').2 < colorDistance rgb c
                cases m with
                | none => exact absurd hdf (by simp [distLT])
                | some m0 =>
                    have h1 := distLT_true_lt hlt
                    have h2 := distLT_false_le hdf
                    omega
            | succ i =>
                show colorDistance rgb (rest.get k').2 < colorDistance rgb (rest.get i).2
                exact hstrict i (Fin.succ_lt_succ_iff.mp hj)
          · intro j hj
            induction j using Fin.cases with
            | zero => exact absurd hj (by simp [Fin.le_def])
            | succ i =>
                show colorDistance rgb (rest.get k').2 ≤ colorDistance rgb (rest.get i).2
                exact hle i (Fin.succ_le_succ_iff.mp hj)

/-- Position of a color name in a palette's declaration order. -/
def rankIn (pal : List (ColorName × ZRGB)) (n : ColorName) : ℕ :=
  (pal.map Prod.fst).indexOf n

/-- In the 4-color palette, ranks agree with list positions. -/
lemma rank_get_bwry : ∀ k : Fin PALETTE.length,
    rankIn PALETTE (PALETTE.get k).1 = k.1 := by decide

/-- In the 4-color palette, looking up the name of an entry returns its color. -/
lemma lookup_get_bwry : ∀ k : Fin PALETTE.length,
    (PALETTE.lookup (PALETTE.get k).1).getD (0, 0, 0) = (PALETTE.get k).2 := by decide

/-- In the 3-color palette, ranks agree with list positions. -/
lemma rank_get_bwr : ∀ k : Fin PALETTE_BWR.length,
    rankIn PALETTE_BWR (PALETTE_BWR.get k).1 = k.1 := by decide

/-- In the 3-color palette, looking up the name of an entry returns its color. -/
lemma lookup_get_bwr : ∀ k : Fin PALETTE_BWR.length,
    (PALETTE_BWR.lookup (PALETTE_BWR.get k).1).getD (0, 0, 0) = (PALETTE_BWR.get k).2 := by
  decide

/-- `nearest_color` returns a global minimizer of the squared Euclidean
distance, and among equal minimizers the one earliest in palette order. -/
lemma nearest_argmin_generic (pal : List (ColorName × ZRGB))
    (hrank : ∀ k : Fin pal.length, rankIn pal (pal.get k).1 = k.1)
    (hlookup : ∀ k : Fin pal.length,
      (pal.lookup (pal.get k).1).getD (0, 0, 0) = (pal.get k).2)
    (hne : pal ≠ []) (rgb : ZRGB) :
    (∀ e ∈ pal, colorDistance rgb
        ((pal.lookup (nearestColorP rgb pal)).getD (0, 0, 0)) ≤ colorDistance rgb e.2) ∧
    (∀ e ∈ pal, colorDistance rgb e.2 = colorDistance rgb
        ((pal.lookup (nearestColorP rgb pal)).getD (0, 0, 0)) →
      rankIn pal (nearestColorP rgb pal) ≤ rankIn pal e.1) := by
  rcases nearestColorGo_spec rgb pal ColorName.white none with ⟨_, hall⟩ | ⟨k, hres, _, hstrict, hle⟩
  · obtain ⟨e0, rest, rfl⟩ : ∃ e0 rest, pal = e0 :: rest := by
      cases pal with
      | nil => exact absurd rfl hne
      | cons a l => exact ⟨a, l, rfl⟩
    exact absurd (hall e0 (List.mem_cons_self _ _)) (by simp [distLT])
  · have hres' : nearestColorP rgb pal = (pal.get k).1 := hres
    constructor
    · intro e he
      obtain ⟨j, hj⟩ := List.mem_iff_get.mp he
      rw [hres', hlookup k, ← hj]
      rcases lt_or_le j k with hjk | hkj
      · exact (hstrict j hjk).le
      · exact hle j hkj
    · intro e he heq
      obtain ⟨j, hj⟩ := List.mem_iff_get.mp he
      rw [hres', hlookup k] at heq
      rw [hres', hrank k, ← hj, hrank j]
      by_cases hjk : j < k
      · have := hstrict j hjk
        rw [← hj] at heq
        omega
      · exact Fin.le_def.mp (not_lt.mp hjk)

/-- C2: for both palette variants, `nearest_color` returns the entry
minimizing the squared Euclidean distance over the 3 channels, ties broken
in favor of the first entry in declaration order; consequently an input equal
to a palette color is classified as that color with zero distance. -/
theorem nearest_color_minimizes (rgb : ZRGB) :
    ((∀ e ∈ PALETTE, colorDistance rgb
        ((PALETTE.lookup (nearestColor rgb)).getD (0, 0, 0)) ≤ colorDistance rgb e.2) ∧
     (∀ e ∈ PALETTE, colorDistance rgb e.2 = colorDistance rgb
        ((PALETTE.lookup (nearestColor rgb)).getD (0, 0, 0)) →
        rankIn PALETTE (nearestColor rgb) ≤ rankIn PALETTE e.1) ∧
     (∀ e ∈ PALETTE, rgb = e.2 → nearestColor rgb = e.1 ∧ colorDistance rgb e.2 = 0)) ∧
    ((∀ e ∈ PALETTE_BWR, colorDistance rgb
        ((PALETTE_BWR.lookup (nearestColorP rgb PALETTE_BWR)).getD (0, 0, 0))
          ≤ colorDistance rgb e.2) ∧
     (∀ e ∈ PALETTE_BWR, colorDistance rgb e.2 = colorDistance rgb
        ((PALETTE_BWR.lookup (nearestColorP rgb PALETTE_BWR)).getD (0, 0, 0)) →
        rankIn PALETTE_BWR (nearestColorP rgb PALETTE_BWR) ≤ rankIn PALETTE_BWR e.1) ∧
     (∀ e ∈ PALETTE_BWR, rgb = e.2 →
        nearestColorP rgb PALETTE_BWR = e.1 ∧ colorDistance rgb e.2 = 0)) := by
  have h4 := nearest_argmin_generic PALETTE rank_get_bwry lookup_get_bwry (by simp [PALETTE]) rgb
  have h3 := nearest_argmin_generic PALETTE_BWR rank_get_bwr lookup_get_bwr
    (by simp [PALETTE_BWR]) rgb
  refine ⟨⟨h4.1, h4.2, ?_⟩, ⟨h3.1, h3.2, ?_⟩⟩
  · intro e he hrgb
    subst hrgb
    fin_cases he <;> exact ⟨by decide, by decide⟩
  · intro e he hrgb
    subst hrgb
    fin_cases he <;> exact ⟨by decide, by decide⟩

/-- Witness for C2: the classification of a concrete palette color and a
concrete off-palette color. -/
theorem nearest_color_minimizes_witness :
    nearestColor (255, 255, 0) = ColorName.yellow ∧
    nearestColorP (255, 0, 0) PALETTE_BWR = ColorName.red := by
  constructor
  · exact ((nearest_color_minimizes (255, 255, 0)).1.2.2
      (ColorName.yellow, (255, 255, 0)) (by simp [PALETTE]) rfl).1
  · exact ((nearest_color_minimizes (255, 0, 0)).2.2.2
      (ColorName.red, (255, 0, 0)) (by simp [PALETTE_BWR]) rfl).1

/-! ### Index codes stay in range -/

/-- Every 4-color code value reachable through the code table is below 4. -/
lemma codes_lt_bwry : ∀ nm : ColorName, (COLOR_CODES.lookup nm).getD 0 < 4 := by
  intro nm
  cases nm <;> decide

/-- Every 3-color code value reachable through the code table is below 3. -/
lemma codes_lt_bwr : ∀ nm : ColorName, (PALETTE_INDICES_BWR.lookup nm).getD 0 < 3 := by
  intro nm
  cases nm <;> decide

/-- A property preserved by each fold step holds after the whole fold. -/
lemma foldl_preserve {α β : Type} (P : α → Prop) (f : α → β → α)
    (hf : ∀ s b, P s → P (f s b)) : ∀ (l : List β) (s : α), P s → P (l.foldl f s) := by
  intro l
  induction l with
  | nil => intro s hs; exact hs
  | cons b rest ih => intro s hs; exact ih (f s b) (hf s b hs)

/-- A dither step only writes one code-table value into the output grid. -/
lemma ditherStep_output_lt (pal : List (ColorName × ZRGB))
    (codes : List (ColorName × ℕ)) (n w h : ℕ)
    (hc : ∀ nm, (codes.lookup nm).getD 0 < n) (st : DState) (y x : ℕ)
    (hst : ∀ a b, st.output a b < n) :
    ∀ a b, (ditherStep pal codes w h st y x).output a b < n := by
  intro a b
  have hout : (ditherStep pal codes w h st y x).output =
      setOut st.output y x
        ((codes.lookup (nearestColorP (truncRGB (st.pixels y x)) pal)).getD 0) := rfl
  rw [hout]
  unfold setOut
  split
  · exact hc _
  · exact hst a b

/-- The output grid of the whole dither run holds only code-table values. -/
lemma dither_output_lt (pal : List (ColorName × ZRGB)) (codes : List (ColorName × ℕ))
    (n w h : ℕ) (hc : ∀ nm, (codes.lookup nm).getD 0 < n) (hn : 0 < n)
    (img : ℕ → ℕ → QRGB) :
    ∀ a b, (floydSteinbergDither w h pal codes img).output a b < n := by
  have h := foldl_preserve (fun st : DState => ∀ a b, st.output a b < n)
    (fun st y => (List.range w).foldl (fun st x => ditherStep pal codes w h st y x) st)
    (fun s yy hs =>
      foldl_preserve _ _ (fun s2 xx hs2 => ditherStep_output_lt pal codes n w h hc s2 yy xx hs2)
        (List.range w) s hs)
    (List.range h) ⟨img, fun _ _ => 0⟩ (fun _ _ => hn)
  exact h

/-- C5: for every input grid and both palette variants, every index code
emitted by the dither engine and by the simple quantizer is a valid code of
the active palette: below 4 for the 4-color variant, below 3 for the 3-color
variant. -/
theorem emitted_codes_in_range (img : ℕ → ℕ → ZRGB) (imgq : ℕ → ℕ → QRGB)
    (w h y x : ℕ) :
    (floydSteinbergDither w h PALETTE COLOR_CODES imgq).output y x < 4 ∧
    (floydSteinbergDither w h PALETTE_BWR PALETTE_INDICES_BWR imgq).output y x < 3 ∧
    simpleQuantize w h PALETTE COLOR_CODES img y x < 4 ∧
    simpleQuantize w h PALETTE_BWR PALETTE_INDICES_BWR img y x < 3 := by
  refine ⟨dither_output_lt PALETTE COLOR_CODES 4 w h codes_lt_bwry (by norm_num) imgq y x,
    dither_output_lt PALETTE_BWR PALETTE_INDICES_BWR 3 w h codes_lt_bwr (by norm_num) imgq y x,
    ?_, ?_⟩
  · unfold simpleQuantize
    split
    · exact codes_lt_bwry _
    · norm_num
  · unfold simpleQuantize
    split
    · exact codes_lt_bwr _
    · norm_num

/-! ### Error diffusion -/

/-- C1: each dither step adds `error * 7/16` to `(x+1, y)`, `error * 3/16` to
`(x-1, y+1)`, `error * 5/16` to `(x, y+1)` and `error * 1/16` to
`(x+1, y+1)`, where `error` is the error-adjusted pixel value minus the
chosen palette RGB, skipping exactly the neighbors outside the grid bounds
and leaving every other cell unchanged. -/
theorem dither_error_diffusion (pal : List (ColorName × ZRGB))
    (codes : List (ColorName × ℕ)) (w h y x i j : ℕ) (st : DState) :
    (ditherStep pal codes w h st y x).pixels i j =
      st.pixels i j
      + (if i = y ∧ j = x + 1 ∧ x + 1 < w then
          ((7:ℚ)/16) • (st.pixels y x -
            qrgb ((pal.lookup (nearestColorP (truncRGB (st.pixels y x)) pal)).getD (0, 0, 0)))
        else 0)
      + (if i = y + 1 ∧ j = x - 1 ∧ 0 < x ∧ y + 1 < h then
          ((3:ℚ)/16) • (st.pixels y x -
            qrgb ((pal.lookup (nearestColorP (truncRGB (st.pixels y x)) pal)).getD (0, 0, 0)))
        else 0)
      + (if i = y + 1 ∧ j = x ∧ y + 1 < h then
          ((5:ℚ)/16) • (st.pixels y x -
            qrgb ((pal.lookup (nearestColorP (truncRGB (st.pixels y x)) pal)).getD (0, 0, 0)))
        else 0)
      + (if i = y + 1 ∧ j = x + 1 ∧ x + 1 < w ∧ y + 1 < h then
          ((1:ℚ)/16) • (st.pixels y x -
            qrgb ((pal.lookup (nearestColorP (truncRGB (st.pixels y x)) pal)).getD (0, 0, 0)))
        else 0) := by
  simp only [ditherStep]
  set E := st.pixels y x -
    qrgb ((pal.lookup (nearestColorP (truncRGB (st.pixels y x)) pal)).getD (0, 0, 0)) with hE
  by_cases h1 : x + 1 < w <;> by_cases h2 : y + 1 < h <;> by_cases h3 : 0 < x <;>
    simp only [h1, h2, h3, addAt, if_true, if_false, ite_true, ite_false, and_true, and_false,
      true_and, false_and] <;>
    (try split_ifs) <;>
    simp

/-! ### Truncation before classification -/

/-- On nonnegative values `astype(int)` is the floor. -/
lemma truncZ_of_nonneg (q : ℚ) (h : 0 ≤ q) : truncZ q = ⌊q⌋ := by
  unfold truncZ
  rw [Int.tdiv_eq_ediv (Rat.num_nonneg.mpr h) (Int.natCast_nonneg _), Rat.floor_def]

/-- On nonpositive values `astype(int)` is the ceiling. -/
lemma truncZ_of_nonpos (q : ℚ) (h : q ≤ 0) : truncZ q = ⌈q⌉ := by
  have h2 : (0:ℚ) ≤ -q := neg_nonneg.mpr h
  have hneg : truncZ (-q) = -truncZ q := by
    unfold truncZ
    rw [Rat.neg_num, Rat.neg_den, Int.neg_tdiv]
  have := truncZ_of_nonneg (-q) h2
  rw [hneg, Int.floor_neg] at this
  exact neg_injective this

/-- C9(amended): the classification inside a dither step is performed on the
error-adjusted value truncated toward zero to integers (numpy `astype(int)`),
with no clamping to [0, 255]: truncation moves each channel by strictly less
than 1 and never changes its sign. -/
theorem dither_classifies_truncated (pal : List (ColorName × ZRGB))
    (codes : List (ColorName × ℕ)) (w h y x : ℕ) (st : DState) (q : ℚ) :
    (ditherStep pal codes w h st y x).output y x =
      (codes.lookup (nearestColorP (truncRGB (st.pixels y x)) pal)).getD 0 ∧
    ((truncZ q : ℚ) - 1 < q ∧ q < (truncZ q : ℚ) + 1) ∧
    (0 ≤ q → 0 ≤ truncZ q) ∧
    (q ≤ 0 → truncZ q ≤ 0) := by
  refine ⟨?_, ?_, ?_, ?_⟩
  · show setOut st.output y x
        ((codes.lookup (nearestColorP (truncRGB (st.pixels y x)) pal)).getD 0) y x = _
    simp [setOut]
  · rcases le_total 0 q with hq | hq
    · rw [truncZ_of_nonneg q hq]
      constructor
      · have := Int.floor_le q
        linarith
      · exact Int.lt_floor_add_one q
    · rw [truncZ_of_nonpos q hq]
      constructor
      · have := Int.ceil_lt_add_one q
        linarith
      · have := Int.le_ceil q
        linarith
  · intro hq
    rw [truncZ_of_nonneg q hq]
    exact Int.floor_nonneg.mpr hq
  · intro hq
    rw [truncZ_of_nonpos q hq]
    exact Int.ceil_le.mpr (by exact_mod_cast hq)

/-- Witness for C9(amended): a concrete step output and concrete sign
preservation on either side of zero. -/
theorem dither_classifies_truncated_witness :
    (ditherStep PALETTE COLOR_CODES 1 1
        ⟨fun _ _ => ((0:ℚ), 0, 0), fun _ _ => 0⟩ 0 0).output 0 0 = 0 ∧
    0 ≤ truncZ (Rat.divInt 5 2) ∧ truncZ (Rat.divInt (-5) 2) ≤ 0 := by
  have h1 := dither_classifies_truncated PALETTE COLOR_CODES 1 1 0 0
    ⟨fun _ _ => ((0:ℚ), 0, 0), fun _ _ => 0⟩ (Rat.divInt 5 2)
  have h2 := dither_classifies_truncated PALETTE COLOR_CODES 1 1 0 0
    ⟨fun _ _ => ((0:ℚ), 0, 0), fun _ _ => 0⟩ (Rat.divInt (-5) 2)
  refine ⟨?_, h1.2.2.1 (by norm_num [Rat.divInt_eq_div]),
    h2.2.2.2 (by norm_num [Rat.divInt_eq_div])⟩
  rw [h1.1]
  rw [show truncRGB ((0:ℚ), 0, 0) = ((0:ℤ), 0, 0) from by decide]
  decide

/-- Counterexample for C9: on the 1×2 grid [(121,121,121), (75,75,75)] the
engine classifies pixel (1,0) from the truncated value (127,127,127) and
emits black (code 0), while classifying the error-adjusted value
(2047/16, 2047/16, 2047/16) as-is yields white (code 1): the value is not
compared as-is. -/
theorem dither_compares_truncated_cex :
    (floydSteinbergDither 2 1 PALETTE COLOR_CODES
        (fun _ x => if x = 0 then ((121:ℚ), 121, 121) else (75, 75, 75))).output 0 1 = 0 ∧
    (ditherStep PALETTE COLOR_CODES 2 1
        ⟨fun _ x => if x = 0 then ((121:ℚ), 121, 121) else (75, 75, 75), fun _ _ => 0⟩
        0 0).pixels 0 1
      = (Rat.divInt 2047 16, Rat.divInt 2047 16, Rat.divInt 2047 16) ∧
    nearestColorQ (Rat.divInt 2047 16, Rat.divInt 2047 16, Rat.divInt 2047 16) PALETTE
      = ColorName.white ∧
    (COLOR_CODES.lookup ColorName.white).getD 0 = 1 := by
  have htr121 : truncRGB ((121:ℚ), 121, 121) = (121, 121, 121) := by
    unfold truncRGB
    norm_num [truncZ_of_nonneg]
  have hn121 : nearestColorP ((121:ℤ), 121, 121) PALETTE = ColorName.black := by decide
  have hpix : (ditherStep PALETTE COLOR_CODES 2 1
      ⟨fun _ x => if x = 0 then ((121:ℚ), 121, 121) else (75, 75, 75), fun _ _ => 0⟩
      0 0).pixels 0 1
      = (Rat.divInt 2047 16, Rat.divInt 2047 16, Rat.divInt 2047 16) := by
    simp only [ditherStep]
    norm_num
    rw [htr121, hn121]
    norm_num [PALETTE, List.lookup, qrgb, addAt, Rat.divInt_eq_div]
  refine ⟨?_, hpix, ?_, by decide⟩
  · show (ditherStep PALETTE COLOR_CODES 2 1
        (ditherStep PALETTE COLOR_CODES 2 1
          ⟨fun _ x => if x = 0 then ((121:ℚ), 121, 121) else (75, 75, 75), fun _ _ => 0⟩
          0 0) 0 1).output 0 1 = 0
    set st1 := ditherStep PALETTE COLOR_CODES 2 1
      ⟨fun _ x => if x = 0 then ((121:ℚ), 121, 121) else (75, 75, 75), fun _ _ => 0⟩
      0 0 with hst1
    have hstep : (ditherStep PALETTE COLOR_CODES 2 1 st1 0 1).output 0 1
        = (COLOR_CODES.lookup (nearestColorP (truncRGB (st1.pixels 0 1)) PALETTE)).getD 0 := by
      show setOut st1.output 0 1
        ((COLOR_CODES.lookup (nearestColorP (truncRGB (st1.pixels 0 1)) PALETTE)).getD 0)
        0 1 = _
      simp [setOut]
    rw [hstep, hpix]
    rw [show truncRGB (Rat.divInt 2047 16, Rat.divInt 2047 16, Rat.divInt 2047 16)
        = ((127:ℤ), 127, 127) from by decide]
    decide
  · norm_num [nearestColorQ, nearestColorQGo, PALETTE, colorDistanceQ, distLTQ,
      Rat.divInt_eq_div]

/-! ### The 4EI1 byte stream -/

/-- A byte packed from four zero codes is zero. -/
lemma packByte_zero (g : ℕ → ℕ → ℕ) (hg : ∀ a b, g a b = 0) (y xb : ℕ) :
    packByte g y xb = 0 := by
  have e : List.range 4 = [0, 1, 2, 3] := rfl
  simp [packByte, e, hg]

/-- Packing an all-zero grid yields all-zero bytes. -/
lemma packPixels_zero (w h : ℕ) (g : ℕ → ℕ → ℕ) (hg : ∀ a b, g a b = 0) :
    packPixels w h g = List.replicate (h * (w / 4)) 0 := by
  rw [List.eq_replicate_iff]
  refine ⟨packPixels_length w h g, ?_⟩
  intro b hb
  obtain ⟨i, _, rfl⟩ := List.mem_map.mp hb
  exact packByte_zero g hg _ _

/-- Simple quantization of a solid-black grid emits only code 0. -/
lemma simpleQuantize_black (y x : ℕ) :
    simpleQuantize 200 200 PALETTE COLOR_CODES (fun _ _ => (0, 0, 0)) y x = 0 := by
  unfold simpleQuantize
  rw [show (COLOR_CODES.lookup (nearestColorP ((0:ℤ), 0, 0) PALETTE)).getD 0 = 0 from by decide]
  exact ite_self 0

/-- C6: every 200×200 conversion to the raw format is exactly the magic
"4EI1", width 200 and height 200 as uint16 little-endian, then
200·200/4 = 10000 packed data bytes (10008 bytes total); for a solid-black
input without dithering the 10000 data bytes are all zero. -/
theorem convert_image_layout (img : ℕ → ℕ → ZRGB) (d : Bool) :
    (convertImage img d).length = 10008 ∧
    (convertImage img d).take 8 = [52, 69, 73, 49, 200, 0, 200, 0] ∧
    (d = false → (∀ y x, img y x = (0, 0, 0)) →
      (convertImage img d).drop 8 = List.replicate 10000 0) := by
  have hsplit : ∀ g : ℕ → ℕ → ℕ, ([52, 69, 73, 49] ++ le16 200 ++ le16 200 ++
      packPixels 200 200 g) = [52, 69, 73, 49, 200, 0, 200, 0] ++ packPixels 200 200 g := by
    intro g
    rfl
  refine ⟨?_, ?_, ?_⟩
  · unfold convertImage
    rw [hsplit]
    simp [packPixels_length]
  · unfold convertImage
    rw [hsplit, List.take_left' (by rfl)]
  · intro hd himg
    subst hd
    unfold convertImage
    rw [hsplit, List.drop_left' (by rfl)]
    simp only [Bool.false_eq_true, if_false, ite_false]
    have hq : ∀ a b, simpleQuantize 200 200 PALETTE COLOR_CODES img a b = 0 := by
      intro a b
      have : img a b = (0, 0, 0) := himg a b
      unfold simpleQuantize
      rw [this]
      rw [show (COLOR_CODES.lookup (nearestColorP ((0:ℤ), 0, 0) PALETTE)).getD 0 = 0 from
        by decide]
      exact ite_self 0
    rw [packPixels_zero _ _ _ hq]

/-- Witness for C6: the solid-black no-dither conversion has all-zero data. -/
theorem convert_image_layout_witness :
    (convertImage (fun _ _ => (0, 0, 0)) false).drop 8 = List.replicate 10000 0 :=
  (convert_image_layout (fun _ _ => (0, 0, 0)) false).2.2 rfl (fun _ _ => rfl)

/-! ### Indexed-bitmap palette table -/

set_option maxRecDepth 4000 in
/-- C8: the 3-color (BWR) bitmap color table is 768 bytes (256 RGB entries):
black, white, red, a duplicate black at index 3, then zero fill; and for a
solid-black input every pixel byte of the bitmap equals 0. -/
theorem bmp_bwr_palette_table :
    (bmpPaletteData Fmt.bwr).length = 768 ∧
    bmpPaletteData Fmt.bwr =
      [0, 0, 0, 255, 255, 255, 255, 0, 0, 0, 0, 0] ++ List.replicate 756 0 ∧
    bmpPixelBytes 200 200
      (simpleQuantize 200 200 PALETTE_BWR PALETTE_INDICES_BWR (fun _ _ => (0, 0, 0)))
      = List.replicate 40000 0 := by
  refine ⟨by rfl, by rfl, ?_⟩
  rw [List.eq_replicate_iff]
  constructor
  · simp [bmpPixelBytes]
  · intro b hb
    unfold bmpPixelBytes at hb
    obtain ⟨i, _, rfl⟩ := List.mem_map.mp hb
    unfold simpleQuantize
    rw [show (PALETTE_INDICES_BWR.lookup
        (nearestColorP ((0:ℤ), 0, 0) PALETTE_BWR)).getD 0 = 0 from by decide]
    exact ite_self 0
